import Mathlib

/-!
Shallow embedding of `ansible-interactive.py`, an interactive front-end that
resolves plays across imported playbook documents, extracts template
variables, partitions inventory selections and launches an external command.

The file system is modelled as a partial map `String → Option String` from
paths to file contents (`None` means the path is not a readable file).
Recursion in `find_plays_in_playbook` is modelled with explicit fuel, since
the Python function has no termination guarantee on cyclic import graphs.
The three `re` patterns of the source, applied with `re.findall`, are
embedded as character-list scanners that follow Python's leftmost,
non-overlapping, backtracking match semantics for those concrete patterns
(with the regex class backslash-s read as ASCII whitespace).
-/

namespace AnsibleInteractive

/-- Whitespace characters of the regex class backslash-s (ASCII range). -/
def isSpaceChar (c : Char) : Bool :=
  c = ' ' || c = '\t' || c = '\n' || c = '\r' || c = '\x0b' || c = '\x0c'

/-- Characters of the bracket class colon-or-whitespace appearing after the
keyword in `IMPORT_PATTERN` and `PLAY_NAME_PATTERN`. -/
def isClassChar (c : Char) : Bool :=
  c = ':' || isSpaceChar c

/-- Largest index `k` with `1 ≤ k < t.length` whose character is not a
newline; used for the backtracking case where the greedy class run reaches
the end of the text and the final `(.+)$` group must still match. -/
def lastNonNl (t : List Char) : Option Nat :=
  ((List.range t.length).filter
    (fun k => decide (1 ≤ k) && decide (t.getD k '\n' ≠ '\n'))).getLast?

/-- One anchored match attempt of a pattern of the shape
`^-[\s]+KEY[:\s]+(.+)$` (multiline) at the current position. Returns the
captured group together with the remaining text after the match end. -/
def tryMatchKeyAt (key : List Char) (l : List Char) : Option (List Char × List Char) :=
  match l with
  | '-' :: r0 =>
    if (r0.takeWhile isSpaceChar).length = 0 then none
    else
      let r1 := r0.dropWhile isSpaceChar
      if key.isPrefixOf r1 then
        let t := r1.drop key.length
        let j := (t.takeWhile isClassChar).length
        if j = 0 then none
        else
          match if j < t.length then some j else lastNonNl t with
          | none => none
          | some k =>
              some ((t.drop k).takeWhile (fun c => c ≠ '\n'),
                    (t.drop k).dropWhile (fun c => c ≠ '\n'))
      else none
  | _ => none

/-- `re.findall` over the whole text for an anchored keyword pattern: try a
match at every line start, record the captured group, and resume scanning
at the match end. Fuel is always instantiated with the text length plus
one, which each step strictly exceeds. -/
def scanKeyAux (key : List Char) : Nat → List Char → Bool → List String
  | 0, _, _ => []
  | _ + 1, [], _ => []
  | fuel + 1, c :: rest, atStart =>
    if atStart then
      match tryMatchKeyAt key (c :: rest) with
      | some (cap, rem) => String.mk cap :: scanKeyAux key fuel rem false
      | none => scanKeyAux key fuel rest (c = '\n')
    else scanKeyAux key fuel rest (c = '\n')

/-- All captures of the keyword pattern over a text, in order. -/
def scanKey (key : List Char) (l : List Char) : List String :=
  scanKeyAux key (l.length + 1) l true

def playKey : List Char := "name".data

def importKey : List Char := "import_playbook".data

/-- `re.findall(PLAY_NAME_PATTERN, s)` of the source. -/
def PLAY_NAME_PATTERN_findall (s : String) : List String :=
  scanKey playKey s.data

/-- `re.findall(IMPORT_PATTERN, s)` of the source. -/
def IMPORT_PATTERN_findall (s : String) : List String :=
  scanKey importKey s.data

/-- `re.findall(VARIABLES_PATTERN, s)`: scan for a double open brace,
skip whitespace, and capture the maximal nonempty run of characters that
are neither whitespace nor a closing brace; resume after the capture. -/
def scanVarsAux : Nat → List Char → List String
  | 0, _ => []
  | _ + 1, [] => []
  | fuel + 1, '\x7b' :: '\x7b' :: rest =>
    let r2 := rest.dropWhile isSpaceChar
    let tok := r2.takeWhile (fun c => !(c = '\x7d') && !isSpaceChar c)
    if tok.isEmpty then scanVarsAux fuel ('\x7b' :: rest)
    else String.mk tok :: scanVarsAux fuel (r2.drop tok.length)
  | fuel + 1, _ :: rest => scanVarsAux fuel rest

/-- All captures of `VARIABLES_PATTERN` over a text, in order. -/
def VARIABLES_PATTERN_findall (s : String) : List String :=
  scanVarsAux (s.data.length + 1) s.data

/-- Lexicographic strict comparison of character lists by code point,
Python's string `<`; a Boolean that the kernel can evaluate, unlike the
iterator-based `String.ltb`. -/
def listLtb : List Char → List Char → Bool
  | [], [] => false
  | [], _ :: _ => true
  | _ :: _, [] => false
  | a :: as, b :: bs =>
    if a < b then true
    else if b < a then false
    else listLtb as bs

theorem listLtb_iff : ∀ a b : List Char, listLtb a b = true ↔ a < b
  | [], [] => by
    simp only [listLtb]
    constructor
    · intro h; cases h
    · intro h; cases h
  | [], b :: bs => by
    simp only [listLtb]
    exact ⟨fun _ => List.Lex.nil, fun _ => trivial⟩
  | a :: as, [] => by
    simp only [listLtb]
    constructor
    · intro h; cases h
    · intro h; cases h
  | a :: as, b :: bs => by
    simp only [listLtb]
    by_cases hab : a < b
    · simp only [hab, if_pos]
      exact ⟨fun _ => List.Lex.rel hab, fun _ => trivial⟩
    · by_cases hba : b < a
      · simp only [hab, hba, ite_true, ite_false]
        constructor
        · intro h; cases h
        · intro h
          cases h with
          | rel h => exact absurd h hab
          | cons h => exact absurd hba (lt_irrefl a)
      · simp only [hab, hba, ite_false]
        have hef : a = b := le_antisymm (not_lt.mp hba) (not_lt.mp hab)
        subst hef
        rw [listLtb_iff as bs]
        constructor
        · intro h; exact List.Lex.cons h
        · intro h
          cases h with
          | rel h => exact absurd h hab
          | cons h => exact h

/-- Python string `<=` on strings, by code point. -/
def pyStrLe (a b : String) : Bool := !(listLtb b.data a.data)

theorem pyStrLe_iff (a b : String) : pyStrLe a b = true ↔ a ≤ b := by
  rw [← not_lt]
  unfold pyStrLe
  rw [Bool.not_eq_true']
  constructor
  · intro h hba
    rw [String.lt_iff_toList_lt] at hba
    have hba' : listLtb b.data a.data = true := (listLtb_iff b.data a.data).mpr hba
    rw [h] at hba'
    cases hba'
  · intro h
    by_contra hne
    rw [Bool.not_eq_false] at hne
    rw [listLtb_iff] at hne
    exact h (String.lt_iff_toList_lt.mpr hne)

/-- A decidability witness for the string order that evaluates inside the
kernel. -/
def decStrLe : DecidableRel (fun a b : String => a ≤ b) := fun a b =>
  decidable_of_iff (pyStrLe a b = true) (pyStrLe_iff a b)

/-- Python's in-place `list.sort()` on strings: a stable sort by the
lexicographic string order. -/
def pySortStrings (l : List String) : List String :=
  @List.insertionSort String (fun a b => a ≤ b) decStrLe l

/-- The first character of a string is `c` (Python `str.startswith` with a
one-character argument). -/
def firstCharIs (s : String) (c : Char) : Bool :=
  match s.data with
  | [] => false
  | d :: _ => d = c

/-- The last character of a string is `c` (Python `str.endswith` with a
one-character argument). -/
def lastCharIs (s : String) (c : Char) : Bool :=
  match s.data.getLast? with
  | some d => d = c
  | none => false

/-- `os.path.dirname` (POSIX): the text up to the last slash, with trailing
slashes stripped unless the head consists of slashes only. -/
def dirname (p : String) : String :=
  let head := (p.data.reverse.dropWhile (fun c => c ≠ '/')).reverse
  if head.isEmpty then ""
  else if head.all (fun c => c = '/') then String.mk head
  else String.mk ((head.reverse.dropWhile (fun c => c = '/')).reverse)

/-- `os.path.join` (POSIX, two arguments): an absolute second component
replaces the first; otherwise the components are joined with a single
separator unless the first is empty or already ends in one. -/
def joinPath (a b : String) : String :=
  if firstCharIs b '/' then b
  else if a = "" || lastCharIs a '/' then a ++ b
  else a ++ "/" ++ b

/-- The warning printed for an import whose resolved path is not a file:
`Warning: incorrect import in '<parent>': '<reference>'`. -/
def warningMsg (path imp : String) : String :=
  "Warning: incorrect import in \x27" ++ path ++ "\x27: \x27" ++ imp ++ "\x27"

/-- One iteration of the import loop in `find_plays_in_playbook`: resolve
the import relative to the parent's directory; if the resolved path is not
a readable file, record the warning and contribute zero plays; otherwise
run the resolver on it and append its plays and warnings. `none` models
fuel exhaustion inside the resolver. -/
def importStep (fs : String → Option String)
    (resolve : String → String → Option (List String × List String))
    (path : String) (acc : List String × List String) (imp : String) :
    Option (List String × List String) :=
  match fs (joinPath (dirname path) imp) with
  | none => some (acc.1, acc.2 ++ [warningMsg path imp])
  | some c =>
    match resolve (joinPath (dirname path) imp) c with
    | none => none
    | some r => some (acc.1 ++ r.1, acc.2 ++ r.2)

/-- `find_plays_in_playbook` of the source: collect the document's own play
names, then walk its import declarations in order, appending the plays of
each readable import's recursive resolution and a warning for each
unreadable one. The Python function recurses without any termination
guard, so the embedding carries explicit fuel; `none` means the fuel ran
out. The second component collects the warnings printed along the way. -/
def find_plays_in_playbook (fs : String → Option String) :
    Nat → String → String → Option (List String × List String)
  | 0, _, _ => none
  | fuel + 1, path, yaml =>
    (IMPORT_PATTERN_findall yaml).foldlM
      (importStep fs (fun q c => find_plays_in_playbook fs fuel q c) path)
      (PLAY_NAME_PATTERN_findall yaml, [])

/-- `find_variables_in_playbook` of the source: `list(set(findall))`
followed by an in-place lexicographic sort, i.e. the deduplicated captures
sorted by the string order. -/
def find_variables_in_playbook (yaml : String) : List String :=
  pySortStrings ((VARIABLES_PATTERN_findall yaml).dedup)

/-- Python list indexing with a possibly negative index: a negative index
counts from the end; `none` models the `IndexError` raised when the
adjusted index is out of range. -/
def pyListGet (l : List String) (i : Int) : Option String :=
  let j := if i < 0 then (l.length : Int) + i else i
  if h : 0 ≤ j ∧ j < (l.length : Int) then
    some (l.get ⟨j.toNat, by omega⟩)
  else none

/-- The numbers of one parsed selection that the range check of
`propose_multiple_options` flags (each one prints `Invalid choice`). -/
def invalid_numbers (options : List String) (numbers : List Int) : List Int :=
  numbers.filter (fun n => decide (n < 0) || decide (n > (options.length : Int)))

/-- Outcome of one pass of the `propose_multiple_options` loop body after
the numeric parse succeeded. -/
inductive MultiOutcome where
  | reprompt
  | crash
  | ret (l : List String)
deriving DecidableEq

/-- One pass of the `propose_multiple_options` loop body on the parsed
numbers: the range check only prints, so execution falls through to the
`0`-membership test (which returns the option list as is) and otherwise to
the indexing comprehension followed by an in-place sort; an out-of-range
index raises `IndexError`, modelled as `crash`. -/
def propose_multiple_outcome (options : List String) (numbers : List Int) :
    MultiOutcome :=
  if (0 : Int) ∈ numbers then .ret options
  else
    match numbers.mapM (fun n => pyListGet options (n - 1)) with
    | some l => .ret (pySortStrings l)
    | none => .crash

/-- The partitioning step of `select_hosts_and_groups` on the selected
entries: an entry starting with an opening bracket is appended to the
groups with its first and last characters sliced off (`entry[1:-1]`), any
other entry is appended to the hosts unchanged. -/
def select_hosts_and_groups (selected : List String) :
    List String × List String :=
  match selected with
  | [] => ([], [])
  | e :: rest =>
    let r := select_hosts_and_groups rest
    if firstCharIs e '[' then ((String.mk e.data.tail.dropLast) :: r.1, r.2)
    else (r.1, e :: r.2)

/-- `execute_command` of the source, with the operator's answer to the
`Proceed` question and the launch attempt's result (`Except` error models
the exception raised when the subprocess fails to launch, `ok` carries the
tool's returncode) passed as values. -/
def execute_command (proceed : Bool) (launch : Except String Int) : Int :=
  if proceed then
    match launch with
    | .ok rc => rc
    | .error _ => 1
  else 0

/-- The `__main__` exit code: a `KeyboardInterrupt` raised anywhere in the
body is caught at top level and mapped to 130; otherwise the process exits
with the value of `execute_command`. -/
def main_exit_code (interrupted : Bool) (proceed : Bool)
    (launch : Except String Int) : Int :=
  if interrupted then 130 else execute_command proceed launch

theorem find_plays_succ (fs : String → Option String) (fuel : Nat)
    (path yaml : String) :
    find_plays_in_playbook fs (fuel + 1) path yaml
      = (IMPORT_PATTERN_findall yaml).foldlM
          (importStep fs (fun q c => find_plays_in_playbook fs fuel q c) path)
          (PLAY_NAME_PATTERN_findall yaml, []) := rfl

theorem importStep_shift (fs : String → Option String)
    (res : String → String → Option (List String × List String))
    (path : String) (ps ws : List String) (imp : String) :
    importStep fs res path (ps, ws) imp
      = (importStep fs res path ([], []) imp).map
          (fun r => (ps ++ r.1, ws ++ r.2)) := by
  unfold importStep
  cases hq : fs (joinPath (dirname path) imp) with
  | none => simp
  | some c =>
    cases hr : res (joinPath (dirname path) imp) c with
    | none => simp [hr]
    | some r => simp [hr]

/-- The import loop is linear in its accumulator: running it from an
arbitrary accumulator equals running it from the empty one and prepending
the accumulator to both components. -/
theorem foldlM_importStep_shift (fs : String → Option String)
    (res : String → String → Option (List String × List String))
    (path : String) :
    ∀ (l : List String) (ps ws : List String),
      l.foldlM (importStep fs res path) (ps, ws)
        = (l.foldlM (importStep fs res path) ([], [])).map
            (fun r => (ps ++ r.1, ws ++ r.2)) := by
  intro l
  induction l with
  | nil => intro ps ws; simp
  | cons i l ih =>
    intro ps ws
    rw [List.foldlM_cons, List.foldlM_cons]
    rw [importStep_shift fs res path ps ws i]
    cases h : importStep fs res path ([], []) i with
    | none => simp
    | some r =>
      obtain ⟨r1, r2⟩ := r
      show (some (ps ++ r1, ws ++ r2)).bind
            (fun b => l.foldlM (importStep fs res path) b)
          = Option.map (fun r => (ps ++ r.1, ws ++ r.2))
              ((some (r1, r2)).bind
                (fun b => l.foldlM (importStep fs res path) b))
      rw [Option.some_bind, Option.some_bind]
      rw [ih (ps ++ r1) (ws ++ r2), ih r1 r2, Option.map_map]
      have hcomp : (fun r : List String × List String =>
            (ps ++ r1 ++ r.1, ws ++ r2 ++ r.2))
          = ((fun r : List String × List String => (ps ++ r.1, ws ++ r.2))
              ∘ fun r => (r1 ++ r.1, r2 ++ r.2)) := by
        funext t
        simp [List.append_assoc]
      rw [hcomp]

/-- The per-import contribution following the wording of the spec: for
each import declaration in declaration order, the full recursively
resolved play-name sequence of that imported document, with an unreadable
one contributing zero plays. `none` propagates fuel exhaustion. -/
def imported_plays (fs : String → Option String) (fuel : Nat) (path : String) :
    List String → Option (List String)
  | [] => some []
  | imp :: rest =>
    match fs (joinPath (dirname path) imp) with
    | none => imported_plays fs fuel path rest
    | some c =>
      match find_plays_in_playbook fs fuel (joinPath (dirname path) imp) c with
      | none => none
      | some r =>
        match imported_plays fs fuel path rest with
        | none => none
        | some tail => some (r.1 ++ tail)

/-- The play component of the import loop run from the empty accumulator
coincides with the spec-side per-import decomposition. -/
theorem foldlM_importStep_fst (fs : String → Option String) (fuel : Nat)
    (path : String) :
    ∀ l : List String,
      (l.foldlM
          (importStep fs (fun q c => find_plays_in_playbook fs fuel q c) path)
          ([], [])).map Prod.fst
        = imported_plays fs fuel path l := by
  intro l
  induction l with
  | nil => simp [imported_plays]
  | cons i l ih =>
    rw [List.foldlM_cons]
    unfold imported_plays
    cases hq : fs (joinPath (dirname path) i) with
    | none =>
      have hstep : importStep fs
          (fun q c => find_plays_in_playbook fs fuel q c) path ([], []) i
          = some ([], [warningMsg path i]) := by
        simp [importStep, hq]
      rw [hstep]
      simp only [Option.bind_eq_bind, Option.some_bind]
      rw [foldlM_importStep_shift, Option.map_map]
      rw [← ih]
      have hfst : (Prod.fst ∘ fun r : List String × List String =>
          ([] ++ r.1, [warningMsg path i] ++ r.2)) = Prod.fst := by
        funext t
        simp
      rw [hfst]
    | some c =>
      cases hr : find_plays_in_playbook fs fuel (joinPath (dirname path) i) c with
      | none =>
        have hstep : importStep fs
            (fun q c => find_plays_in_playbook fs fuel q c) path ([], []) i
            = none := by
          simp [importStep, hq, hr]
        rw [hstep]
        simp [hr]
      | some r =>
        have hstep : importStep fs
            (fun q c => find_plays_in_playbook fs fuel q c) path ([], []) i
            = some (r.1, r.2) := by
          simp [importStep, hq, hr]
        rw [hstep]
        simp only [Option.bind_eq_bind, Option.some_bind]
        rw [foldlM_importStep_shift, Option.map_map]
        rw [← ih]
        simp only [hr]
        cases hfold : l.foldlM
            (importStep fs (fun q c => find_plays_in_playbook fs fuel q c) path)
            ([], []) with
        | none => simp
        | some t => simp

/-- A two-document file system realising the worked example of the spec:
`/p/a.yml` declares the play `Deploy` and imports `b.yml`, and `/p/b.yml`
declares the play `Configure`. -/
def exampleFS : String → Option String := fun p =>
  if p = "/p/a.yml" then some "- name: Deploy\n- import_playbook: b.yml"
  else if p = "/p/b.yml" then some "- name: Configure"
  else none

/-- C1: play resolution returns the root document's own declared play
names first, in source order, followed by, for each import declaration in
declaration order, the full recursively resolved play-name sequence of
that imported document; in particular the `/p/a.yml`, `/p/b.yml` example
resolves to `["Deploy", "Configure"]`. -/
theorem c1_resolution_order :
    (∀ (fs : String → Option String) (fuel : Nat) (path yaml : String),
      (find_plays_in_playbook fs (fuel + 1) path yaml).map Prod.fst
        = (imported_plays fs fuel path (IMPORT_PATTERN_findall yaml)).map
            (fun t => PLAY_NAME_PATTERN_findall yaml ++ t))
    ∧ (find_plays_in_playbook exampleFS 2 "/p/a.yml"
        "- name: Deploy\n- import_playbook: b.yml").map Prod.fst
        = some ["Deploy", "Configure"] := by
  constructor
  · intro fs fuel path yaml
    rw [find_plays_succ]
    rw [foldlM_importStep_shift, Option.map_map]
    rw [← foldlM_importStep_fst fs fuel path, Option.map_map]
    rfl
  · decide

/-- C2: a document with no import declarations resolves to exactly its own
declared play names in source order, duplicates preserved. -/
theorem c2_no_imports :
    (∀ (fs : String → Option String) (fuel : Nat) (path yaml : String),
      IMPORT_PATTERN_findall yaml = [] →
      find_plays_in_playbook fs (fuel + 1) path yaml
        = some (PLAY_NAME_PATTERN_findall yaml, []))
    ∧ PLAY_NAME_PATTERN_findall "- name: Deploy\n- name: Deploy"
        = ["Deploy", "Deploy"] := by
  constructor
  · intro fs fuel path yaml h
    rw [find_plays_succ, h]
    rfl
  · decide

theorem c2_no_imports_witness :
    find_plays_in_playbook (fun _ => none) 1 "/p/a.yml"
        "- name: Deploy\n- name: Deploy"
      = some (["Deploy", "Deploy"], []) := by
  have h := c2_no_imports.1 (fun _ => none) 0 "/p/a.yml"
    "- name: Deploy\n- name: Deploy" (by decide)
  rw [h]
  decide

/-- Running the import loop across a dead import: the play component is
the same as with the import removed, and the warning for the dead import
is recorded whenever the loop completes. -/
theorem foldlM_importStep_deadImport (fs : String → Option String)
    (res : String → String → Option (List String × List String))
    (path : String) (l1 l2 : List String) (imp : String) (P : List String)
    (h2 : fs (joinPath (dirname path) imp) = none) :
    (((l1 ++ imp :: l2).foldlM (importStep fs res path) (P, [])).map Prod.fst
      = ((l1 ++ l2).foldlM (importStep fs res path) (P, [])).map Prod.fst)
    ∧ ∀ r, (l1 ++ imp :: l2).foldlM (importStep fs res path) (P, []) = some r →
        warningMsg path imp ∈ r.2 := by
  rw [List.foldlM_append, List.foldlM_append]
  cases hl1 : l1.foldlM (importStep fs res path) (P, []) with
  | none =>
    constructor
    · simp
    · intro r hr
      simp at hr
  | some acc =>
    obtain ⟨p1, w1⟩ := acc
    have hstep : importStep fs res path (p1, w1) imp
        = some (p1, w1 ++ [warningMsg path imp]) := by
      simp [importStep, h2]
    have hcons : (imp :: l2).foldlM (importStep fs res path) (p1, w1)
        = (l2.foldlM (importStep fs res path) ([], [])).map
            (fun t => (p1 ++ t.1, (w1 ++ [warningMsg path imp]) ++ t.2)) := by
      rw [List.foldlM_cons, hstep]
      simp only [Option.bind_eq_bind, Option.some_bind]
      rw [foldlM_importStep_shift]
    constructor
    · simp only [Option.bind_eq_bind, Option.some_bind]
      rw [hcons]
      rw [foldlM_importStep_shift fs res path l2 p1 w1]
      rw [Option.map_map, Option.map_map]
      rfl
    · intro r hr
      simp only [Option.bind_eq_bind, Option.some_bind] at hr
      rw [hcons] at hr
      rw [Option.map_eq_some'] at hr
      obtain ⟨t, _, ht⟩ := hr
      rw [← ht]
      simp

/-- C3: an import whose resolved path is not a readable file contributes a
warning identifying the parent document and the reference, contributes
zero plays, and does not stop the remaining imports of the same document:
the play component equals that of a document with the same plays whose
list of imports omits the dead one. -/
theorem c3_dead_import (fs : String → Option String) (fuel : Nat)
    (path yaml yaml2 : String) (l1 l2 : List String) (imp : String)
    (h1 : IMPORT_PATTERN_findall yaml = l1 ++ imp :: l2)
    (h2 : fs (joinPath (dirname path) imp) = none)
    (h3 : PLAY_NAME_PATTERN_findall yaml2 = PLAY_NAME_PATTERN_findall yaml)
    (h4 : IMPORT_PATTERN_findall yaml2 = l1 ++ l2) :
    ((find_plays_in_playbook fs (fuel + 1) path yaml).map Prod.fst
      = (find_plays_in_playbook fs (fuel + 1) path yaml2).map Prod.fst)
    ∧ ∀ r, find_plays_in_playbook fs (fuel + 1) path yaml = some r →
        warningMsg path imp ∈ r.2 := by
  rw [find_plays_succ, find_plays_succ, h1, h3, h4]
  exact foldlM_importStep_deadImport fs
    (fun q c => find_plays_in_playbook fs fuel q c) path l1 l2 imp
    (PLAY_NAME_PATTERN_findall yaml) h2

def c3FS : String → Option String := fun p =>
  if p = "/p/a.yml"
    then some "- name: A\n- import_playbook: missing.yml\n- import_playbook: b.yml"
  else if p = "/p/b.yml" then some "- name: B"
  else none

/-- C3 witness: in a file system where `/p/a.yml` has a dead import
`missing.yml` followed by a live one, resolution matches the document
without the dead import and records the warning. -/
theorem c3_dead_import_witness :
    ((find_plays_in_playbook c3FS 2 "/p/a.yml"
        "- name: A\n- import_playbook: missing.yml\n- import_playbook: b.yml").map
          Prod.fst
      = (find_plays_in_playbook c3FS 2 "/p/a.yml"
          "- name: A\n- import_playbook: b.yml").map Prod.fst)
    ∧ warningMsg "/p/a.yml" "missing.yml"
        ∈ ((["A", "B"], [warningMsg "/p/a.yml" "missing.yml"])
            : List String × List String).2 := by
  have h := c3_dead_import c3FS 1 "/p/a.yml"
    "- name: A\n- import_playbook: missing.yml\n- import_playbook: b.yml"
    "- name: A\n- import_playbook: b.yml" [] ["b.yml"] "missing.yml"
    (by decide) (by decide) (by decide) (by decide)
  exact ⟨h.1,
    h.2 (["A", "B"], [warningMsg "/p/a.yml" "missing.yml"]) (by decide)⟩

theorem perm_pySortStrings (l : List String) : List.Perm (pySortStrings l) l :=
  @List.perm_insertionSort String (fun a b => a ≤ b) decStrLe l

theorem sorted_pySortStrings (l : List String) :
    List.Sorted (fun a b : String => a ≤ b) (pySortStrings l) :=
  @List.sorted_insertionSort String (fun a b => a ≤ b) decStrLe
    inferInstance inferInstance l

/-- C4: variable extraction returns a duplicate-free, lexicographically
sorted sequence; it is deterministic on a text and depends only on the set
of captured names, not on their multiplicity or order. -/
theorem c4_extraction_canonical :
    (∀ s : String, (find_variables_in_playbook s).Nodup)
    ∧ (∀ s : String,
        List.Sorted (fun a b : String => a ≤ b) (find_variables_in_playbook s))
    ∧ (∀ s : String, find_variables_in_playbook s = find_variables_in_playbook s)
    ∧ (∀ s t : String,
        (∀ x ∈ VARIABLES_PATTERN_findall s, x ∈ VARIABLES_PATTERN_findall t) →
        (∀ x ∈ VARIABLES_PATTERN_findall t, x ∈ VARIABLES_PATTERN_findall s) →
        find_variables_in_playbook s = find_variables_in_playbook t) := by
  refine ⟨?_, fun s => sorted_pySortStrings _, fun s => rfl, ?_⟩
  · intro s
    unfold find_variables_in_playbook
    exact (perm_pySortStrings _).symm.nodup (List.nodup_dedup _)
  · intro s t hst hts
    unfold find_variables_in_playbook
    have hperm : List.Perm (VARIABLES_PATTERN_findall s).dedup
        (VARIABLES_PATTERN_findall t).dedup := by
      rw [List.perm_ext_iff_of_nodup (List.nodup_dedup _) (List.nodup_dedup _)]
      intro a
      simp only [List.mem_dedup]
      exact ⟨hst a, hts a⟩
    exact List.eq_of_perm_of_sorted
      ((perm_pySortStrings _).trans (hperm.trans (perm_pySortStrings _).symm))
      (sorted_pySortStrings _) (sorted_pySortStrings _)

/-- C4 witness: two texts mentioning the same names in different orders
and multiplicities extract equal variable sequences. -/
theorem c4_extraction_canonical_witness :
    find_variables_in_playbook "\x7b\x7ba\x7d\x7d \x7b\x7bb\x7d\x7d"
      = find_variables_in_playbook
          "\x7b\x7bb\x7d\x7d \x7b\x7ba\x7d\x7d \x7b\x7ba\x7d\x7d" :=
  c4_extraction_canonical.2.2.2 "\x7b\x7ba\x7d\x7d \x7b\x7bb\x7d\x7d"
    "\x7b\x7bb\x7d\x7d \x7b\x7ba\x7d\x7d \x7b\x7ba\x7d\x7d"
    (by decide) (by decide)

/-- C5 counterexample: the text containing the three example template
expressions does not extract to `["a"]` — the dotted reference is captured
whole. -/
theorem c5_counterexample :
    find_variables_in_playbook
        "\x7b\x7b a.b \x7d\x7d\n\x7b\x7ba\x7d\x7d\n\x7b\x7b a | default \x7d\x7d"
      ≠ ["a"] := by decide

/-- C5 amended: extraction captures the leading run of characters that are
neither whitespace nor a closing brace, so a whitespace-separated filter
is excluded but a dotted accessor attached to the name is kept; the
example text extracts to `["a", "a.b"]`. -/
theorem c5_amended :
    find_variables_in_playbook
        "\x7b\x7b a.b \x7d\x7d\n\x7b\x7ba\x7d\x7d\n\x7b\x7b a | default \x7d\x7d"
      = ["a", "a.b"]
    ∧ VARIABLES_PATTERN_findall
        "\x7b\x7b a.b \x7d\x7d\n\x7b\x7ba\x7d\x7d\n\x7b\x7b a | default \x7d\x7d"
      = ["a.b", "a", "a"] := by decide

/-- C6 counterexample: selecting the `0` ("All") meta-choice returns the
option list in its original, unsorted order, so the example inventory
partitions its hosts as `["web1", "db1"]`, not `["db1", "web1"]`. -/
theorem c6_counterexample :
    propose_multiple_outcome ["web1", "[webservers]", "db1"] [0]
      = .ret ["web1", "[webservers]", "db1"]
    ∧ pySortStrings ["web1", "[webservers]", "db1"]
        ≠ ["web1", "[webservers]", "db1"]
    ∧ select_hosts_and_groups ["web1", "[webservers]", "db1"]
        = (["webservers"], ["web1", "db1"])
    ∧ (["web1", "db1"] : List String) ≠ ["db1", "web1"] := by decide

/-- C6 amended: explicit numeric selections are returned sorted
lexicographically, and then the example partition holds; the `0`
meta-choice, however, returns the options in their original order. -/
theorem c6_amended :
    (∀ (options : List String) (numbers : List Int) (l : List String),
      (0 : Int) ∉ numbers →
      propose_multiple_outcome options numbers = .ret l →
      List.Sorted (fun a b : String => a ≤ b) l)
    ∧ propose_multiple_outcome ["web1", "[webservers]", "db1"] [1, 2, 3]
        = .ret ["[webservers]", "db1", "web1"]
    ∧ select_hosts_and_groups ["[webservers]", "db1", "web1"]
        = (["webservers"], ["db1", "web1"])
    ∧ propose_multiple_outcome ["web1", "[webservers]", "db1"] [0]
        = .ret ["web1", "[webservers]", "db1"] := by
  refine ⟨?_, by decide, by decide, by decide⟩
  intro options numbers l h0 hret
  unfold propose_multiple_outcome at hret
  rw [if_neg h0] at hret
  cases hm : numbers.mapM (fun n => pyListGet options (n - 1)) with
  | none =>
    rw [hm] at hret
    cases hret
  | some l0 =>
    rw [hm] at hret
    cases hret
    exact sorted_pySortStrings l0

/-- C6 amended witness: the explicit selection `1,2,3` over the example
inventory returns a lexicographically sorted list. -/
theorem c6_amended_witness :
    List.Sorted (fun a b : String => a ≤ b)
      ["[webservers]", "db1", "web1"] :=
  c6_amended.1 ["web1", "[webservers]", "db1"] [1, 2, 3]
    ["[webservers]", "db1", "web1"] (by decide) (by decide)

/-- C7: the range check of the multi-choice prompt flags an out-of-range
or negative number (printing `Invalid choice`) but does not re-prompt: the
loop then indexes the option list anyway, raising `IndexError` for `5` on
three options and silently selecting via negative indexing for `-1`. -/
theorem c7_validation_bug :
    invalid_numbers ["a", "b", "c"] [5] = [5]
    ∧ propose_multiple_outcome ["a", "b", "c"] [5] = .crash
    ∧ invalid_numbers ["a", "b", "c"] [-1] = [-1]
    ∧ propose_multiple_outcome ["a", "b", "c"] [-1] = .ret ["b"] := by decide

/-- C8: command execution returns 0 when the operator declines (without
inspecting the launch result), 1 when the subprocess fails to launch, the
tool's own status verbatim otherwise; a `KeyboardInterrupt` exits 130. -/
theorem c8_exit_codes :
    (∀ launch : Except String Int, execute_command false launch = 0)
    ∧ (∀ e : String, execute_command true (Except.error e) = 1)
    ∧ (∀ rc : Int, execute_command true (Except.ok rc) = rc)
    ∧ (∀ (p : Bool) (launch : Except String Int),
        main_exit_code true p launch = 130)
    ∧ (∀ (p : Bool) (launch : Except String Int),
        main_exit_code false p launch = execute_command p launch) :=
  ⟨fun _ => rfl, fun _ => rfl, fun _ => rfl, fun _ _ => rfl, fun _ _ => rfl⟩

/-- C10: partitioning classifies exactly the entries whose first character
is an opening bracket as groups, slicing off their first and last
characters whatever the last character is (`"[web"` gives `"we"`, `"["`
gives `""`), and passes every other entry through unchanged as a host. -/
theorem c10_partition :
    (∀ entries : List String,
      select_hosts_and_groups entries
        = ((entries.filter (fun e => firstCharIs e '[')).map
              (fun e => String.mk e.data.tail.dropLast),
           entries.filter (fun e => !(firstCharIs e '['))))
    ∧ select_hosts_and_groups ["[web"] = (["we"], [])
    ∧ select_hosts_and_groups ["["] = ([""], [])
    ∧ select_hosts_and_groups ["[web]", "db1"] = (["web"], ["db1"]) := by
  refine ⟨?_, by decide, by decide, by decide⟩
  intro entries
  induction entries with
  | nil => rfl
  | cons e rest ih =>
    rw [List.filter_cons, List.filter_cons]
    cases hf : firstCharIs e '[' with
    | true => simp [select_hosts_and_groups, hf, ih]
    | false => simp [select_hosts_and_groups, hf, ih]

/-- The resolved paths of a document's import declarations, in declaration
order. -/
def importTargets (path c : String) : List String :=
  (IMPORT_PATTERN_findall c).map (fun imp => joinPath (dirname path) imp)

/-- The import graph of a file system is acyclic, witnessed by a rank
function that strictly decreases along every readable import edge. -/
def AcyclicRank (fs : String → Option String) (rank : String → Nat) : Prop :=
  ∀ p c, fs p = some c → ∀ q ∈ importTargets p c, (fs q).isSome → rank q < rank p

/-- A one-document cyclic file system: `/p/a.yml` imports itself. -/
def cyclicFS : String → Option String := fun p =>
  if p = "/p/a.yml" then some "- import_playbook: a.yml" else none

/-- The import loop preserves successful results when the resolver is
replaced by one that agrees on all successes. -/
theorem foldlM_importStep_mono (fs : String → Option String) (path : String)
    (res res2 : String → String → Option (List String × List String))
    (hres : ∀ q c r, res q c = some r → res2 q c = some r) :
    ∀ (l : List String) (acc r : List String × List String),
      l.foldlM (importStep fs res path) acc = some r →
      l.foldlM (importStep fs res2 path) acc = some r := by
  intro l
  induction l with
  | nil =>
    intro acc r h
    simpa using h
  | cons i l ih =>
    intro acc r h
    rw [List.foldlM_cons] at h ⊢
    cases hq : fs (joinPath (dirname path) i) with
    | none =>
      have e1 : importStep fs res path acc i
          = some (acc.1, acc.2 ++ [warningMsg path i]) := by
        simp [importStep, hq]
      have e2 : importStep fs res2 path acc i
          = some (acc.1, acc.2 ++ [warningMsg path i]) := by
        simp [importStep, hq]
      rw [e1] at h
      rw [e2]
      simp only [Option.bind_eq_bind, Option.some_bind] at h ⊢
      exact ih _ _ h
    | some c =>
      cases hr : res (joinPath (dirname path) i) c with
      | none =>
        have e1 : importStep fs res path acc i = none := by
          simp [importStep, hq, hr]
        rw [e1] at h
        simp at h
      | some r0 =>
        have hr2 := hres _ _ _ hr
        have e1 : importStep fs res path acc i
            = some (acc.1 ++ r0.1, acc.2 ++ r0.2) := by
          simp [importStep, hq, hr]
        have e2 : importStep fs res2 path acc i
            = some (acc.1 ++ r0.1, acc.2 ++ r0.2) := by
          simp [importStep, hq, hr2]
        rw [e1] at h
        rw [e2]
        simp only [Option.bind_eq_bind, Option.some_bind] at h ⊢
        exact ih _ _ h

/-- More fuel never turns a successful resolution into a failure, and
never changes its value. -/
theorem find_plays_mono (fs : String → Option String) :
    ∀ fuel fuel2 : Nat, fuel ≤ fuel2 →
    ∀ (path yaml : String) (r : List String × List String),
      find_plays_in_playbook fs fuel path yaml = some r →
      find_plays_in_playbook fs fuel2 path yaml = some r := by
  intro fuel
  induction fuel with
  | zero =>
    intro fuel2 _ path yaml r h
    cases h
  | succ n ih =>
    intro fuel2 hle path yaml r h
    obtain ⟨m, rfl⟩ : ∃ m, fuel2 = m + 1 := ⟨fuel2 - 1, by omega⟩
    rw [find_plays_succ] at h ⊢
    exact foldlM_importStep_mono fs path
      (fun q c => find_plays_in_playbook fs n q c)
      (fun q c => find_plays_in_playbook fs m q c)
      (fun q c r hqc => ih m (by omega) q c r hqc) _ _ _ h

/-- The import loop succeeds whenever the resolver succeeds on every
readable import of the list. -/
theorem foldlM_importStep_isSome (fs : String → Option String) (path : String)
    (res : String → String → Option (List String × List String)) :
    ∀ l : List String,
      (∀ imp ∈ l, ∀ c, fs (joinPath (dirname path) imp) = some c →
        (res (joinPath (dirname path) imp) c).isSome) →
      ∀ acc, (l.foldlM (importStep fs res path) acc).isSome := by
  intro l
  induction l with
  | nil =>
    intro _ acc
    simp
  | cons i l ih =>
    intro h acc
    rw [List.foldlM_cons]
    cases hq : fs (joinPath (dirname path) i) with
    | none =>
      have e1 : importStep fs res path acc i
          = some (acc.1, acc.2 ++ [warningMsg path i]) := by
        simp [importStep, hq]
      rw [e1]
      simp only [Option.bind_eq_bind, Option.some_bind]
      exact ih (fun imp hm => h imp (List.mem_cons_of_mem _ hm)) _
    | some c =>
      have hs := h i (List.mem_cons_self i l) c hq
      obtain ⟨r0, hr0⟩ := Option.isSome_iff_exists.mp hs
      have e1 : importStep fs res path acc i
          = some (acc.1 ++ r0.1, acc.2 ++ r0.2) := by
        simp [importStep, hq, hr0]
      rw [e1]
      simp only [Option.bind_eq_bind, Option.some_bind]
      exact ih (fun imp hm => h imp (List.mem_cons_of_mem _ hm)) _

/-- Bounded induction on the rank: every document of rank below the bound
resolves with fuel one more than its rank. -/
theorem acyclic_resolves_aux (fs : String → Option String)
    (rank : String → Nat) (hA : AcyclicRank fs rank) :
    ∀ n : Nat, ∀ path yaml : String, rank path < n → fs path = some yaml →
      (find_plays_in_playbook fs (rank path + 1) path yaml).isSome := by
  intro n
  induction n with
  | zero =>
    intro path yaml h
    exact absurd h (Nat.not_lt_zero _)
  | succ n ih =>
    intro path yaml hlt hfs
    rw [find_plays_succ]
    apply foldlM_importStep_isSome
    intro imp hmem c hc
    have hq : joinPath (dirname path) imp ∈ importTargets path yaml :=
      List.mem_map_of_mem _ hmem
    have hrk : rank (joinPath (dirname path) imp) < rank path :=
      hA path yaml hfs _ hq (by rw [hc]; rfl)
    have hsub := ih (joinPath (dirname path) imp) c (by omega) hc
    obtain ⟨r, hr⟩ := Option.isSome_iff_exists.mp hsub
    have hmono := find_plays_mono fs _ (rank path) (by omega) _ c r hr
    rw [hmono]
    rfl

/-- C9: no cycle detection is performed — on a file system whose import
graph is acyclic (witnessed by a rank function), resolution succeeds with
fuel exceeding the root's rank, while on the self-importing `/p/a.yml`
resolution exhausts every finite amount of fuel. -/
theorem c9_cycles :
    (∀ (fs : String → Option String) (rank : String → Nat),
      AcyclicRank fs rank →
      ∀ path yaml : String, fs path = some yaml →
        (find_plays_in_playbook fs (rank path + 1) path yaml).isSome)
    ∧ (∀ fuel : Nat, find_plays_in_playbook cyclicFS fuel "/p/a.yml"
        "- import_playbook: a.yml" = none) := by
  constructor
  · intro fs rank hA path yaml hfs
    exact acyclic_resolves_aux fs rank hA (rank path + 1) path yaml
      (Nat.lt_succ_self _) hfs
  · intro fuel
    induction fuel with
    | zero => rfl
    | succ n ih =>
      rw [find_plays_succ]
      have h1 : IMPORT_PATTERN_findall "- import_playbook: a.yml"
          = ["a.yml"] := by decide
      rw [h1, List.foldlM_cons]
      have hj : joinPath (dirname "/p/a.yml") "a.yml" = "/p/a.yml" := by decide
      have hstep : importStep cyclicFS
          (fun q c => find_plays_in_playbook cyclicFS n q c) "/p/a.yml"
          (PLAY_NAME_PATTERN_findall "- import_playbook: a.yml", []) "a.yml"
          = none := by
        unfold importStep
        rw [hj]
        have hfs : cyclicFS "/p/a.yml" = some "- import_playbook: a.yml" := by
          decide
        rw [hfs]
        simp [ih]
      rw [hstep]
      rfl

def oneFS : String → Option String := fun p =>
  if p = "/x.yml" then some "- name: A" else none

/-- C9 witness: a single acyclic document resolves with fuel 1, and the
self-importing document fails at the concrete fuel 5. -/
theorem c9_cycles_witness :
    (find_plays_in_playbook oneFS 1 "/x.yml" "- name: A").isSome
    ∧ find_plays_in_playbook cyclicFS 5 "/p/a.yml"
        "- import_playbook: a.yml" = none := by
  constructor
  · have hA : AcyclicRank oneFS (fun _ => 0) := by
      intro p c hp q hq _
      by_cases hpx : p = "/x.yml"
      · subst hpx
        have hc : c = "- name: A" := by
          have := hp
          simp [oneFS] at this
          exact this.symm
        subst hc
        have ht : importTargets "/x.yml" "- name: A" = [] := by decide
        rw [ht] at hq
        exact absurd hq (List.not_mem_nil q)
      · exfalso
        simp [oneFS, hpx] at hp
    exact c9_cycles.1 oneFS (fun _ => 0) hA "/x.yml" "- name: A" (by decide)
  · exact c9_cycles.2 5

end AnsibleInteractive
